import Mathlib

/-!
# ghelp / linux: mount points, trace events and the trace pipe watcher

A shallow embedding of `linux/fs.go`, `linux/trace_events.go` and `linux/trace.go`.

* Go strings are lists of characters (`Str`).
* The operating system is a record of transition functions `OS W` over a world `W`;
  every call the package makes to `os.MkdirAll`, `syscall.Mount`, `os.ReadFile`,
  `os.Readlink` and `os.WriteFile` is appended to a call log, so that "this call was never
  made" is a statement about the log.
* Go errors are the values of `GoError`; `errors.Is` walks the `Unwrap` chain.
-/

namespace Ghelp

/-! ## Go strings and the parts of `strings`, `unicode`, `path/filepath` the package uses -/

/-- A Go string. -/
abbrev Str := List Char

/-- The byte 0x00. -/
def NUL : Char := Char.ofNat 0

/-- The backslash character (0x5C). -/
def backslash : Char := Char.ofNat 92

/-- Go `strings.HasPrefix s p`. -/
def HasPrefixStr (s p : Str) : Bool := p.isPrefixOf s

/-- Go `strings.CutPrefix s p`: the rest of `s` and `true` when `s` starts with `p`,
`s` itself and `false` otherwise. -/
def CutPrefixStr (s p : Str) : Str × Bool :=
  if HasPrefixStr s p then (s.drop p.length, true) else (s, false)

/-- Go `strings.Contains s substr`. -/
def Contains : Str → Str → Bool
  | [], substr => HasPrefixStr [] substr
  | c :: s, substr => HasPrefixStr (c :: s) substr || Contains s substr

/-- Loop of `strings.Split` for a one-byte separator: `cur` is the segment read so far,
reversed. -/
def splitAux (sep : Char) : Str → Str → List Str
  | [], cur => [cur.reverse]
  | c :: s, cur =>
    if c == sep then cur.reverse :: splitAux sep s [] else splitAux sep s (c :: cur)

/-- Go `strings.Split s sep` for a one-byte separator (the package only splits on ":" and
","). The result is never empty: `Split "" sep` is `[""]`. -/
def Split (s : Str) (sep : Char) : List Str := splitAux sep s []

/-- Go `unicode.IsSpace`. -/
def IsSpace (r : Char) : Bool :=
  let n := r.toNat
  n == 0x09 || n == 0x0A || n == 0x0B || n == 0x0C || n == 0x0D || n == 0x20
    || n == 0x85 || n == 0xA0 || n == 0x1680 || (decide (0x2000 ≤ n) && decide (n ≤ 0x200A))
    || n == 0x2028 || n == 0x2029 || n == 0x202F || n == 0x205F || n == 0x3000

/-- Go `strings.TrimSpace`. -/
def TrimSpace (s : Str) : Str :=
  ((s.dropWhile IsSpace).reverse.dropWhile IsSpace).reverse

/-- Go `strings.Trim s cutset`: drops every leading and trailing character that occurs in
`cutset`. -/
def Trim (s cutset : Str) : Str :=
  ((s.dropWhile (fun c => cutset.contains c)).reverse.dropWhile
    (fun c => cutset.contains c)).reverse

/-- Loop of `strings.Fields`: `cur` is the field read so far, reversed. -/
def fieldsAux : Str → Str → List Str
  | [], cur => if cur.isEmpty then [] else [cur.reverse]
  | c :: s, cur =>
    if IsSpace c then
      (if cur.isEmpty then fieldsAux s [] else cur.reverse :: fieldsAux s [])
    else fieldsAux s (c :: cur)

/-- Go `strings.Fields`: the maximal runs of non-space characters, in order. -/
def Fields (s : Str) : List Str := fieldsAux s []

/-- Go `filepath.IsAbs` on Unix. -/
def IsAbs (path : Str) : Bool := HasPrefixStr path ['/']

/-- The backtracking of `filepath.Clean` at a ".." element, on the reversed output buffer:
characters are removed until the removed one is a separator or the buffer is down to
`dotdot` characters. -/
def cleanBacktrack : Str → Nat → Str
  | [], _ => []
  | c :: r, dotdot =>
    if decide (r.length > dotdot) && c != '/' then cleanBacktrack r dotdot else r

/-- The main loop of `filepath.Clean`: `path` is what is left to read, `out` the output
buffer, `dotdot` the index where ".." must stop. Each round reads at least one character,
so `path.length` rounds are enough. -/
def cleanLoop (rooted : Bool) : Nat → Str → Str → Nat → Str
  | 0, _, out, _ => out
  | fuel + 1, path, out, dotdot =>
    match path with
    | [] => out
    | c :: rest =>
      if c == '/' then
        cleanLoop rooted fuel rest out dotdot
      else if c == '.' && (rest.isEmpty || rest.head? == some '/') then
        cleanLoop rooted fuel rest out dotdot
      else if c == '.' && rest.head? == some '.'
          && (rest.tail.isEmpty || rest.tail.head? == some '/') then
        if out.length > dotdot then
          cleanLoop rooted fuel rest.tail (cleanBacktrack out.reverse dotdot).reverse dotdot
        else if !rooted then
          let out1 := if out.length > 0 then out ++ ['/'] else out
          let out2 := out1 ++ ['.', '.']
          cleanLoop rooted fuel rest.tail out2 out2.length
        else
          cleanLoop rooted fuel rest.tail out dotdot
      else
        let out1 :=
          if (rooted && out.length != 1) || (!rooted && out.length != 0) then out ++ ['/']
          else out
        cleanLoop rooted fuel (path.dropWhile (fun x => x != '/'))
          (out1 ++ path.takeWhile (fun x => x != '/')) dotdot

/-- Go `filepath.Clean` on Unix. -/
def Clean (path : Str) : Str :=
  if path.isEmpty then ['.']
  else
    let rooted := path.head? == some '/'
    let out := cleanLoop rooted path.length (if rooted then path.tail else path)
      (if rooted then ['/'] else []) (if rooted then 1 else 0)
    if out.isEmpty then ['.'] else out

/-- Go `filepath.Join a b` on Unix: the elements from the first non-empty one on are
joined with "/" and cleaned. -/
def Join (a b : Str) : Str :=
  if !a.isEmpty then Clean (a ++ ['/'] ++ b)
  else if !b.isEmpty then Clean b
  else []

/-- A string literal of the source as a Go string. -/
def lit (s : String) : Str := s.toList

/-! ## Errors -/

/-- Go error values the package creates or receives. `ErrMountExist` and
`ErrMountNotExist` are the two sentinels of `fs.go`; `FSError` is `*FSError`, which keeps
of its `fs` field the two strings `FS.String` prints. -/
inductive GoError where
  | ErrMountExist
  | ErrMountNotExist
  | errorString (msg : Str)
  | sysError (msg : Str) (errno : Nat)
  | wrapError (msg : Str) (err : GoError)
  | FSError (op : Str) (fsType target : Str) (Err : GoError)
  deriving DecidableEq, Repr

/-- The errno of "no such file or directory". -/
def ENOENT : Nat := 2

/-- Go `os.IsNotExist`. -/
def IsNotExist : GoError → Bool
  | .sysError _ errno => errno == ENOENT
  | _ => false

/-- The `Error()` method. For `FSError` it is
`fmt.Sprintf("%s error; %s: %v\n", e.op, e.fs, e.Err)` with `e.fs` printed by `FS.String`,
`fmt.Sprintf("FS[type=%s, target=%s]", fs.fsType, fs.target)`. -/
def GoError.Error : GoError → Str
  | .ErrMountExist => lit "mount point already exists"
  | .ErrMountNotExist => lit "mount point not exists"
  | .errorString msg => msg
  | .sysError msg _ => msg
  | .wrapError msg _ => msg
  | .FSError op fsType target err =>
    op ++ lit " error; " ++ (lit "FS[type=" ++ fsType ++ lit ", target=" ++ target ++ lit "]")
      ++ lit ": " ++ err.Error ++ ['\n']

/-- Go `errors.Is err target` for a sentinel `target`: `err` is `target`, or the error it
unwraps to is. -/
def errorsIs : GoError → GoError → Bool
  | .wrapError msg err, target =>
    decide (GoError.wrapError msg err = target) || errorsIs err target
  | .FSError op fsType tgt err, target =>
    decide (GoError.FSError op fsType tgt err = target) || errorsIs err target
  | err, target => decide (err = target)

/-! ## The operating system and the call log -/

/-- The operating system as the package sees it: each call takes the world and gives its
result and the world after it. A read gives the data and the error, as in Go. -/
structure OS (W : Type) where
  stat : Str → W → Option GoError × W
  mkdirAll : Str → Nat → W → Option GoError × W
  mount : Str → Str → Str → Nat → Str → W → Option GoError × W
  unmount : Str → Int → W → Option GoError × W
  readFile : Str → W → (Str × Option GoError) × W
  readlink : Str → W → (Str × Option GoError) × W
  writeFile : Str → Str → Nat → W → Option GoError × W
  openFile : Str → W → Option GoError × W

/-- A call the package made to the operating system, with its arguments; a read also
records the data it returned. -/
inductive Call where
  | mkdirAll (path : Str) (perm : Nat)
  | mount (source target fsType : Str) (flags : Nat) (data : Str)
  | unmount (target : Str) (flags : Int)
  | readFile (path : Str) (data : Str)
  | readlink (path : Str) (data : Str)
  | writeFile (path : Str) (content : Str) (perm : Nat)
  deriving DecidableEq, Repr

/-- The state a function of the package runs in: the world and the calls made so far,
oldest first. -/
structure Sys (W : Type) where
  world : W
  log : List Call
  deriving DecidableEq

/-! ## `fs.go` -/

/-- The struct `FS`. `check` is `nil` (`none`) or a function from the target to an error
that may look at the world. -/
structure FS (W : Type) where
  source : Str
  target : Str
  fsType : Str
  check : Option (Str → W → Option GoError × W)

/-- The function `NewFS`. -/
def NewFS {W : Type} (source target fsType : Str)
    (check : Option (Str → W → Option GoError × W)) : FS W :=
  FS.mk source target fsType check

/-- The value `&FSError{op, fs, Err}`. -/
def FS.error {W : Type} (fs : FS W) (op : Str) (err : GoError) : GoError :=
  GoError.FSError op fs.fsType fs.target err

/-- The method `FS.MountWithFlags`. -/
def FS.MountWithFlags {W : Type} (os : OS W) (fs : FS W) (flags : Nat) (s : Sys W) :
    Option GoError × Sys W :=
  let checked : Option GoError × Sys W :=
    match fs.check with
    | some check =>
      let r := check fs.target s.world
      match r.1 with
      | some err => (some (fs.error (lit "check mount point") err), Sys.mk r.2 s.log)
      | none => (none, Sys.mk r.2 s.log)
    | none => (none, s)
  match checked with
  | (some e, s1) => (some e, s1)
  | (none, s1) =>
    let r1 := os.mkdirAll fs.target 0o755 s1.world
    let s2 := Sys.mk r1.2 (s1.log ++ [Call.mkdirAll fs.target 0o755])
    match r1.1 with
    | some err => (some (fs.error (lit "mount") err), s2)
    | none =>
      let r2 := os.mount fs.source fs.target fs.fsType flags [] s2.world
      let s3 := Sys.mk r2.2 (s2.log ++ [Call.mount fs.source fs.target fs.fsType flags []])
      match r2.1 with
      | some err => (some (fs.error (lit "mount") err), s3)
      | none => (none, s3)

/-- The method `FS.Mount`. -/
def FS.Mount {W : Type} (os : OS W) (fs : FS W) (s : Sys W) : Option GoError × Sys W :=
  fs.MountWithFlags os 0 s

/-- The method `FS.Unmount`. -/
def FS.Unmount {W : Type} (os : OS W) (fs : FS W) (flags : Int) (s : Sys W) :
    Option GoError × Sys W :=
  let r := os.unmount fs.target flags s.world
  (r.1, Sys.mk r.2 (s.log ++ [Call.unmount fs.target flags]))

/-- The gate that opens `ReadFile`, `ReadLink` and `WriteFile`: with a check configured,
`true` (with the world after the check) when the check returned `nil` or an error that is
not `ErrMountExist`. -/
def FS.notMounted {W : Type} (fs : FS W) (s : Sys W) : Bool × Sys W :=
  match fs.check with
  | some check =>
    let r := check fs.target s.world
    match r.1 with
    | none => (true, Sys.mk r.2 s.log)
    | some err => (!errorsIs err GoError.ErrMountExist, Sys.mk r.2 s.log)
  | none => (false, s)

/-- The path the three file operations go on with: a relative `path` is joined under the
target. -/
def FS.resolve {W : Type} (fs : FS W) (path : Str) : Str :=
  if !IsAbs path then Join fs.target path else path

/-- The error `fmt.Errorf("path %s has another mount point", path)`. -/
def anotherMountPoint (path : Str) : GoError :=
  GoError.errorString (lit "path " ++ path ++ lit " has another mount point")

/-- The method `FS.ReadFile`. -/
def FS.ReadFile {W : Type} (os : OS W) (fs : FS W) (path : Str) (s : Sys W) :
    (Str × Option GoError) × Sys W :=
  match fs.notMounted s with
  | (true, s1) => (([], some (fs.error (lit "read file") GoError.ErrMountNotExist)), s1)
  | (false, s1) =>
    let path := fs.resolve path
    if !HasPrefixStr path fs.target then
      (([], some (fs.error (lit "read file") (anotherMountPoint path))), s1)
    else
      let r := os.readFile path s1.world
      (r.1, Sys.mk r.2 (s1.log ++ [Call.readFile path r.1.1]))

/-- The method `FS.ReadLink`. -/
def FS.ReadLink {W : Type} (os : OS W) (fs : FS W) (path : Str) (s : Sys W) :
    (Str × Option GoError) × Sys W :=
  match fs.notMounted s with
  | (true, s1) => (([], some (fs.error (lit "read link") GoError.ErrMountNotExist)), s1)
  | (false, s1) =>
    let path := fs.resolve path
    if !HasPrefixStr path fs.target then
      (([], some (fs.error (lit "read link") (anotherMountPoint path))), s1)
    else
      let r := os.readlink path s1.world
      (r.1, Sys.mk r.2 (s1.log ++ [Call.readlink path r.1.1]))

/-- The method `FS.WriteFile`. -/
def FS.WriteFile {W : Type} (os : OS W) (fs : FS W) (path content : Str) (perm : Nat)
    (s : Sys W) : Option GoError × Sys W :=
  match fs.notMounted s with
  | (true, s1) => (some (fs.error (lit "write file") GoError.ErrMountNotExist), s1)
  | (false, s1) =>
    let path := fs.resolve path
    if !HasPrefixStr path fs.target then
      (some (fs.error (lit "write file") (anotherMountPoint path)), s1)
    else
      let r := os.writeFile path content perm s1.world
      (r.1, Sys.mk r.2 (s1.log ++ [Call.writeFile path content perm]))

/-- The function `checkExist`: the check that stats `path` under the target and returns
`nil` when it does not exist, the stat error when the stat fails otherwise, and
`ErrMountExist` when it exists. -/
def checkExist {W : Type} (os : OS W) (path : Str) : Str → W → Option GoError × W :=
  fun target w =>
    let r := os.stat (Join target path) w
    match r.1 with
    | some err => if IsNotExist err then (none, r.2) else (some err, r.2)
    | none => (some GoError.ErrMountExist, r.2)

/-- The package variable `ProcFS`. -/
def ProcFS {W : Type} (os : OS W) : FS W :=
  NewFS (lit "proc") (lit "/proc") (lit "proc") (some (checkExist os (lit "self")))

/-- The package variable `TraceFS`. -/
def TraceFS {W : Type} (os : OS W) : FS W :=
  NewFS (lit "tracefs") (lit "/sys/kernel/tracing") (lit "tracefs")
    (some (checkExist os (lit "available_events")))

/-- The package variable `DebugFS`. -/
def DebugFS {W : Type} (os : OS W) : FS W :=
  NewFS (lit "debugfs") (lit "/sys/kernel/debug") (lit "debugfs")
    (some (checkExist os (lit "tracing")))

/-- The package variable `CgroupFS`. -/
def CgroupFS {W : Type} (os : OS W) : FS W :=
  NewFS (lit "cgroup2") (lit "/sys/fs/cgroup") (lit "cgroup2")
    (some (checkExist os (lit "cgroup.controllers")))

/-- The package variable `TempFS`. -/
def TempFS {W : Type} : FS W := NewFS (lit "tmpfs") (lit "/tmp") (lit "tmpfs") none

/-- The package variable `DevFS`. -/
def DevFS {W : Type} : FS W := NewFS (lit "udev") (lit "/dev") (lit "devtmpfs") none

/-! ## `trace_events.go` -/

/-- The constant `defaultSubsystem`. -/
def defaultSubsystem : Str := lit "syscalls"

/-- The type `TraceEvents`. -/
abbrev TraceEvents := List Str

/-- The event name `setEnable` takes from an identifier: `se[len(se)-1]` of
`se := strings.Split(e, ":")`. -/
def eventName (e : Str) : Str := (Split e ':').getLastD []

/-- The subsystem `setEnable` takes from an identifier: `se[0]` when `len(se) > 1`,
`defaultSubsystem` otherwise. -/
def eventSubsystem (e : Str) : Str :=
  let se := Split e ':'
  if se.length > 1 then se.headD [] else defaultSubsystem

/-- The path of `setEnable`: `fmt.Sprintf("events/%s/%s/enable", subsystem, event)`. -/
def eventPath (e : Str) : Str :=
  lit "events/" ++ eventSubsystem e ++ lit "/" ++ eventName e ++ lit "/enable"

/-- The end of one round of the loop of `setEnable`, from the comparison of the trimmed
content with the flag on: nothing when they are equal, else the write, whose error is
only logged. -/
def setEnableWrite {W : Type} (os : OS W) (flag path b : Str) (s : Sys W) : Sys W :=
  if TrimSpace b == flag then s
  else ((TraceFS os).WriteFile os path flag 0o666 s).2

/-- The loop of `setEnable` over the events left. -/
def setEnableLoop {W : Type} (os : OS W) (flag : Str) :
    List Str → Sys W → Option GoError × Sys W
  | [], s => (none, s)
  | e :: rest, s =>
    let path := eventPath e
    match (TraceFS os).ReadFile os path s with
    | ((b, some err), s1) =>
      if !errorsIs err GoError.ErrMountNotExist then (some err, s1)
      else
        match (TraceFS os).Mount os s1 with
        | (some mntErr, s2) => (some mntErr, s2)
        | (none, s2) => setEnableLoop os flag rest (setEnableWrite os flag path b s2)
    | ((b, none), s1) => setEnableLoop os flag rest (setEnableWrite os flag path b s1)

/-- The method `TraceEvents.setEnable`. -/
def setEnable {W : Type} (os : OS W) (events : TraceEvents) (enable : Bool) (s : Sys W) :
    Option GoError × Sys W :=
  let flag := if enable then lit "1" else lit "0"
  setEnableLoop os flag events s

/-- The method `TraceEvents.Enable`. -/
def Enable {W : Type} (os : OS W) (events : TraceEvents) (s : Sys W) :
    Option GoError × Sys W :=
  setEnable os events true s

/-- The method `TraceEvents.Disable`. -/
def Disable {W : Type} (os : OS W) (events : TraceEvents) (s : Sys W) :
    Option GoError × Sys W :=
  setEnable os events false s

/-- The cutset `parseBootstrapEvents` passes to `strings.Trim`: the Go literal
`"\\x00[]"`, which is the six characters backslash, `x`, `0`, `0`, `[`, `]`. -/
def trimCutset : Str := [backslash, 'x', '0', '0', '[', ']']

/-- The tokens of `parseBootstrapEvents`:
`strings.Fields(strings.Trim(string(cmdline), "\\x00[]"))`. -/
def bootstrapParams (cmdline : Str) : List Str := Fields (Trim cmdline trimCutset)

/-- The inner loop of `parseBootstrapEvents` over the entries of one `trace_events=`
value: an entry without ":" gets "syscalls:" in front, and is appended to `events`. -/
def appendEvents (events : List Str) (syscallParam : Str) : List Str :=
  (Split syscallParam ',').foldl
    (fun events event =>
      events ++ [if !Contains event (lit ":") then lit "syscalls:" ++ event else event])
    events

/-- The outer loop of `parseBootstrapEvents` over the tokens, from `var events []string`. -/
def collectEvents (bootstrapParams : List Str) : List Str :=
  bootstrapParams.foldl
    (fun events arg =>
      match CutPrefixStr arg (lit "trace_events=") with
      | (syscallParam, true) => appendEvents events syscallParam
      | (_, false) => events)
    []

/-- The start of `parseBootstrapEvents`: `ProcFS.Mount()`, where only an error that is not
`ErrMountExist` is fatal, then `ProcFS.ReadFile("cmdline")`, where every error is fatal.
`none` is `log.Fatal`. -/
def readCmdline {W : Type} (os : OS W) (s : Sys W) : Option Str × Sys W :=
  let m := (ProcFS os).Mount os s
  let fatal : Bool :=
    match m.1 with
    | some err => !errorsIs err GoError.ErrMountExist
    | none => false
  if fatal then (none, m.2)
  else
    match (ProcFS os).ReadFile os (lit "cmdline") m.2 with
    | ((_, some _), s2) => (none, s2)
    | ((cmdline, none), s2) => (some cmdline, s2)

/-- The function `parseBootstrapEvents`; `none` when it ends in `log.Fatal`. -/
def parseBootstrapEvents {W : Type} (os : OS W) (s : Sys W) : Option (List Str) × Sys W :=
  match readCmdline os s with
  | (none, s1) => (none, s1)
  | (some cmdline, s1) => (some (collectEvents (bootstrapParams cmdline)), s1)

/-! ## `trace.go` -/

/-- The constant `tracePipe`. -/
def tracePipe : Str := lit "/sys/kernel/debug/tracing/trace_pipe"

/-- The struct `TracePipeWatcher` with what its goroutines do to it. `debugCtx` is `nil`
(`none`) or a context with its cancelled flag; `closed` is `nil` (`none`) or a channel with
its closed flag (nothing is ever sent on it); `watching` says that the goroutine started by
`StartWithCxt`, the only code that closes the channel, exists and has not finished. -/
structure TracePipeWatcher where
  debugCtx : Option Bool
  closed : Option Bool
  watching : Bool
  deriving DecidableEq, Repr

/-- The function `NewPipeWatcher`: `closed` is `make(chan struct{})`, an open channel. -/
def NewPipeWatcher : TracePipeWatcher := TracePipeWatcher.mk none (some false) false

/-- How a call ends: it returns, or it is blocked in the receive `<-tp.closed`. -/
inductive Outcome where
  | returned
  | blocked
  deriving DecidableEq, Repr

/-- The goroutine of `StartWithCxt` runs as far as it can: once the context is cancelled
it closes the channel and ends. -/
def runWatcher (tp : TracePipeWatcher) : TracePipeWatcher :=
  if tp.watching && tp.debugCtx == some true then
    TracePipeWatcher.mk tp.debugCtx (tp.closed.map (fun _ => true)) false
  else tp

/-- The method `TracePipeWatcher.WaitStop`: with a non-nil channel it receives from it,
which returns once the channel is closed and blocks as long as it is open. -/
def WaitStop (tp : TracePipeWatcher) : Outcome × TracePipeWatcher :=
  match tp.closed with
  | none => (Outcome.returned, tp)
  | some _ =>
    let tp1 := runWatcher tp
    if tp1.closed == some true then (Outcome.returned, tp1) else (Outcome.blocked, tp1)

/-- The method `TracePipeWatcher.Stop`. -/
def Stop (tp : TracePipeWatcher) : Outcome × TracePipeWatcher :=
  let tp1 :=
    match tp.debugCtx with
    | some _ => TracePipeWatcher.mk (some true) tp.closed tp.watching
    | none => tp
  WaitStop tp1

/-- The method `TracePipeWatcher.StartWithCxt`; `ctxDone` says whether the parent context
is already cancelled. -/
def StartWithCxt {W : Type} (os : OS W) (tp : TracePipeWatcher) (ctxDone : Bool)
    (s : Sys W) : Option GoError × TracePipeWatcher × Sys W :=
  let st := os.stat tracePipe s.world
  let s1 := Sys.mk st.2 s.log
  let pre : Option GoError × Sys W :=
    match st.1 with
    | some err =>
      if !IsNotExist err then (some err, s1)
      else
        match (DebugFS os).Mount os s1 with
        | (some mntErr, s2) =>
          (some (GoError.errorString (lit "failed to mount trace_pipe: " ++ mntErr.Error)), s2)
        | (none, s2) => (none, s2)
    | none => (none, s1)
  match pre with
  | (some err, s2) => (some err, tp, s2)
  | (none, s2) =>
    let o := os.openFile tracePipe s2.world
    let s3 := Sys.mk o.2 s2.log
    match o.1 with
    | some err =>
      (some (GoError.wrapError (lit "error opening trace pipe: " ++ err.Error) err), tp, s3)
    | none => (none, TracePipeWatcher.mk (some ctxDone) tp.closed true, s3)

/-- The method `TracePipeWatcher.Start`: `StartWithCxt(context.Background())`. -/
def Start {W : Type} (os : OS W) (tp : TracePipeWatcher) (s : Sys W) :
    Option GoError × TracePipeWatcher × Sys W :=
  StartWithCxt os tp false s

/-! ## Worlds to run the package in -/

/-- A file system in memory: the files that exist, with their content. -/
abbrev MemFS := List (Str × Str)

/-- The content of `path`, when it exists. -/
def MemFS.read (fs : MemFS) (path : Str) : Option Str :=
  (fs.find? (fun f => f.1 == path)).map (fun f => f.2)

/-- The file system after `content` is written to `path`. -/
def MemFS.write : MemFS → Str → Str → MemFS
  | [], path, content => [(path, content)]
  | f :: fs, path, content =>
    if f.1 == path then (path, content) :: fs else f :: MemFS.write fs path content

/-- The error of a call on a file that does not exist. -/
def noSuchFile : GoError := GoError.sysError (lit "no such file or directory") ENOENT

/-- The operating system over a file system in memory: a file is there when it is in the
list, reading it gives its content, a write of `content` makes later reads of that path give
`content`; creating directories and mounting change nothing. -/
def memOS : OS MemFS where
  stat := fun path w => (if (w.read path).isSome then none else some noSuchFile, w)
  mkdirAll := fun _ _ w => (none, w)
  mount := fun _ _ _ _ _ w => (none, w)
  unmount := fun _ _ w => (none, w)
  readFile := fun path w =>
    match w.read path with
    | some content => ((content, none), w)
    | none => (([], some noSuchFile), w)
  readlink := fun _ w => (([], some noSuchFile), w)
  writeFile := fun path content _ w => (none, w.write path content)
  openFile := fun path w => (if (w.read path).isSome then none else some noSuchFile, w)

/-- The error "permission denied". -/
def EACCES : GoError := GoError.sysError (lit "permission denied") 13

/-- An operating system without state where every stat succeeds, every read gives
`content` with the error `readErr`, and every write ends with `writeErr`. -/
def stubOS (content : Str) (readErr writeErr : Option GoError) : OS Unit where
  stat := fun _ w => (none, w)
  mkdirAll := fun _ _ w => (none, w)
  mount := fun _ _ _ _ _ w => (none, w)
  unmount := fun _ _ w => (none, w)
  readFile := fun _ w => ((content, readErr), w)
  readlink := fun _ w => ((content, readErr), w)
  writeFile := fun _ _ _ w => (writeErr, w)
  openFile := fun _ w => (none, w)

/-- An operating system where another process mounts the file systems while the package
runs: the world counts the stats made, the first stat finds nothing and every later one
finds the file. -/
def raceOS : OS Nat where
  stat := fun _ n => (if n == 0 then some noSuchFile else none, n + 1)
  mkdirAll := fun _ _ n => (none, n)
  mount := fun _ _ _ _ _ n => (none, n)
  unmount := fun _ _ n => (none, n)
  readFile := fun _ n => (([], none), n)
  readlink := fun _ n => (([], none), n)
  writeFile := fun _ _ _ n => (none, n)
  openFile := fun _ n => (none, n)

/-! ## What the claims say, and the worlds of the examples -/

/-- A world in which procfs is mounted. -/
def procWorld : MemFS := [(lit "/proc/self", [])]

/-- The containment the mount point is to keep: `path`, with its "." and ".." elements
resolved, is `target` or lies below it. -/
def lexicallyWithin (target path : Str) : Bool :=
  Clean path == target || HasPrefixStr (Clean path) (target ++ ['/'])

/-- A world in which procfs is mounted and two files exist outside `/proc`. -/
def escapeWorld : MemFS :=
  [(lit "/proc/self", []), (lit "/procfoo/x", lit "secret"),
    (lit "/proc/../etc/passwd", lit "root:x:0:0")]

/-- What the claim takes for the subsystem. -/
def claimedSubsystem (e : Str) : Str :=
  if ':' ∈ e then (e.reverse.dropWhile (fun c => c != ':')).tail.reverse else defaultSubsystem

/-- A world in which tracefs is mounted and three events are switched off. -/
def toggleWorld : MemFS :=
  [(lit "/sys/kernel/tracing/available_events", []),
    (lit "/sys/kernel/tracing/events/net/tcp_connect/enable", lit "0\n"),
    (lit "/sys/kernel/tracing/events/syscalls/openat/enable", lit "0\n"),
    (lit "/sys/kernel/tracing/events/a/c/enable", lit "0\n")]

/-- What the claim says of one entry. -/
def qualified (entry : Str) : Str :=
  if ':' ∈ entry then entry else lit "syscalls:" ++ entry

/-- What the claim says of a list of tokens: the tokens that start with "trace_events="
give their comma-separated entries, each qualified, in order; the others give nothing. -/
def claimedEvents (tokens : List Str) : List Str :=
  tokens.flatMap (fun token =>
    if lit "trace_events=" <+: token then
      ((token.drop (lit "trace_events=").length).splitOn ',').map qualified
    else [])

/-- A world in which procfs is mounted and `/proc/cmdline` asks for two events. -/
def bootWorld : MemFS :=
  [(lit "/proc/self", []),
    (lit "/proc/cmdline", lit "BOOT_IMAGE=/vmlinuz ro trace_events=openat,net:tcp_connect quiet\n")]

/-- The marker the check of `TraceFS` stats. -/
def tracefsMarker : Str := lit "/sys/kernel/tracing/available_events"

/-- The absolute path of the enable file of an event: the path of `setEnable` joined under
the target of `TraceFS`. -/
def absPath (e : Str) : Str := Join (lit "/sys/kernel/tracing") (eventPath e)

/-- The containment test of the file operations of `TraceFS`, for the enable file of `e`. -/
def contained (e : Str) : Bool := HasPrefixStr (absPath e) (lit "/sys/kernel/tracing")

/-- The reads of a call log, in order: path and data returned. -/
def readsOf : List Call → List (Str × Str)
  | [] => []
  | Call.readFile path data :: l => (path, data) :: readsOf l
  | _ :: l => readsOf l

/-- The writes of a call log, in order: path and content. -/
def writesOf : List Call → List (Str × Str)
  | [] => []
  | Call.writeFile path content _ :: l => (path, content) :: writesOf l
  | _ :: l => writesOf l

/-- The enable file at `path` exists and its trimmed content is `flag` already. -/
def alreadySet (flag : Str) (w : MemFS) (path : Str) : Bool :=
  (w.read path).map TrimSpace == some flag

/-- What the claim says of a toggle `run` with flag `flag` that starts in the file system
`w` with the call log `l`: the first call ends without error, reads every event in order,
writes `flag`, once, exactly to the event paths whose trimmed content was not `flag`
already, which gives the file system `w1`; a second call right after it ends without error,
makes only reads and leaves the file system `w1`. -/
def TogglesOnce (run : Sys MemFS → Option GoError × Sys MemFS) (flag : Str)
    (events : TraceEvents) (w : MemFS) (l : List Call) : Prop :=
  ∃ (w1 : MemFS) (L1 : List Call),
    run (Sys.mk w l) = (none, Sys.mk w1 (l ++ L1))
      ∧ (readsOf L1).map Prod.fst = events.map absPath
      ∧ (∀ p c, (p, c) ∈ writesOf L1
          ↔ (c = flag ∧ p ∈ events.map absPath ∧ alreadySet flag w p = false))
      ∧ (writesOf L1).Nodup
      ∧ (∀ q, w1.read q
          = if q ∈ events.map absPath ∧ alreadySet flag w q = false then some flag
            else w.read q)
      ∧ run (Sys.mk w1 (l ++ L1))
        = (none, Sys.mk w1 (l ++ L1
            ++ events.map (fun e => Call.readFile (absPath e) ((w1.read (absPath e)).getD []))))

/-- What the claim calls the whitespace-separated tokens of a line: the line is cut at every
space character and the empty pieces are left out. -/
def claimedTokens (line : Str) : List Str :=
  (line.splitOnP IsSpace).filter (fun t => !t.isEmpty)

/-- The characters a line must not begin or end with to be plain: NUL, the brackets, and
backslash, `x`, `0`. -/
def endChars : Str := [NUL, '[', ']', backslash, 'x', '0']

/-- The first or last character of a line, when there is one, is none of `endChars`. -/
def plainEnd : Option Char → Bool
  | none => true
  | some c => !endChars.contains c

/-! ## Theorems -/

/-- Dropping a run of characters from the front does not make a string longer. -/
theorem length_dropWhile_le (p : Char → Bool) (l : Str) : (l.dropWhile p).length ≤ l.length := by
  induction l with
  | nil => simp
  | cons a t ih =>
    rw [List.dropWhile_cons]
    split
    · exact Nat.le_succ_of_le ih
    · exact Nat.le_refl _

/-- One more round than the length of the path changes nothing: the fuel of `Clean` is
enough. -/
theorem cleanLoop_fuel (rooted : Bool) :
    ∀ (fuel : Nat) (path out : Str) (dotdot : Nat), path.length ≤ fuel →
      cleanLoop rooted (fuel + 1) path out dotdot = cleanLoop rooted fuel path out dotdot := by
  intro fuel
  induction fuel with
  | zero =>
    intro path out dotdot h
    have : path = [] := List.length_eq_zero.mp (Nat.le_zero.mp h)
    subst this
    simp [cleanLoop]
  | succ n ih =>
    intro path out dotdot h
    cases path with
    | nil => simp [cleanLoop]
    | cons c rest =>
      have hrest : rest.length ≤ n := by simpa using h
      have htail : rest.tail.length ≤ n := by
        have := List.length_tail rest
        omega
      have hdrop : ((c :: rest).dropWhile (fun x => x != '/')).length ≤ n ∨ c = '/' := by
        by_cases hc : c = '/'
        · exact Or.inr hc
        · left
          have : (c :: rest).dropWhile (fun x => x != '/') = rest.dropWhile (fun x => x != '/') := by
            simp [List.dropWhile_cons, hc]
          rw [this]
          exact Nat.le_trans (length_dropWhile_le _ _) hrest
      rw [cleanLoop, cleanLoop]
      simp only
      split
      · exact ih _ _ _ hrest
      · rename_i hc
        have hc2 : c ≠ '/' := by simpa using hc
        have hd := hdrop.resolve_right hc2
        split
        · exact ih _ _ _ hrest
        · split
          · split
            · exact ih _ _ _ htail
            · split
              · exact ih _ _ _ htail
              · exact ih _ _ _ htail
          · exact ih _ _ _ hd

/-- C2: when the existence check of an `FS` returns `ErrMountExist`, `MountWithFlags`
(for every `flags`) and `Mount` return the `FSError` with op "check mount point" around it,
which `errors.Is` matches with `ErrMountExist` and whose message contains the text of
`ErrMountExist`; the call log is left as it was, so neither `os.MkdirAll` nor
`syscall.Mount` was called. -/
theorem mount_already_mounted {W : Type} (os : OS W) (fs : FS W)
    (check : Str → W → Option GoError × W) (flags : Nat) (s : Sys W) (w1 : W)
    (hc : fs.check = some check)
    (hr : check fs.target s.world = (some GoError.ErrMountExist, w1)) :
    fs.MountWithFlags os flags s
        = (some (GoError.FSError (lit "check mount point") fs.fsType fs.target
            GoError.ErrMountExist), Sys.mk w1 s.log)
      ∧ fs.Mount os s
        = (some (GoError.FSError (lit "check mount point") fs.fsType fs.target
            GoError.ErrMountExist), Sys.mk w1 s.log)
      ∧ errorsIs (GoError.FSError (lit "check mount point") fs.fsType fs.target
            GoError.ErrMountExist) GoError.ErrMountExist = true
      ∧ GoError.ErrMountExist.Error <:+:
          (GoError.FSError (lit "check mount point") fs.fsType fs.target
            GoError.ErrMountExist).Error := by
  refine ⟨?_, ?_, ?_, ?_⟩
  · simp [FS.MountWithFlags, hc, hr, FS.error]
  · simp [FS.Mount, FS.MountWithFlags, hc, hr, FS.error]
  · simp [errorsIs]
  · exact ⟨lit "check mount point" ++ lit " error; "
      ++ (lit "FS[type=" ++ fs.fsType ++ lit ", target=" ++ fs.target ++ lit "]") ++ lit ": ",
      ['\n'], by simp [GoError.Error]⟩

/-- Witness of C2: `ProcFS` in a world where `/proc/self` exists. -/
theorem mount_already_mounted_witness :
    (ProcFS memOS).MountWithFlags memOS 0 (Sys.mk procWorld [])
        = (some (GoError.FSError (lit "check mount point") (lit "proc") (lit "/proc")
            GoError.ErrMountExist), Sys.mk procWorld []) :=
  (mount_already_mounted memOS (ProcFS memOS) (checkExist memOS (lit "self")) 0
    (Sys.mk procWorld []) procWorld rfl (by decide)).1

/-- The gate of the file operations is shut when the check does not return an error that
matches `ErrMountExist`. -/
theorem notMounted_of_check {W : Type} (fs : FS W) (check : Str → W → Option GoError × W)
    (s : Sys W) (hc : fs.check = some check)
    (hr : ∀ err, (check fs.target s.world).1 = some err →
      errorsIs err GoError.ErrMountExist = false) :
    fs.notMounted s = (true, Sys.mk (check fs.target s.world).2 s.log) := by
  unfold FS.notMounted
  rw [hc]
  cases h : (check fs.target s.world).1 with
  | none => simp [h]
  | some err => simp [h, hr err h]

/-- C3: when the existence check of an `FS` returns `nil` or an error that `errors.Is` does
not match with `ErrMountExist`, then for every path `ReadFile`, `ReadLink` and `WriteFile`
return the `FSError` around `ErrMountNotExist` and no data, and leave the call log as it
was: no read, readlink or write reached the operating system. -/
theorem file_ops_need_confirmed_mount {W : Type} (os : OS W) (fs : FS W)
    (check : Str → W → Option GoError × W) (path content : Str) (perm : Nat) (s : Sys W)
    (hc : fs.check = some check)
    (hr : ∀ err, (check fs.target s.world).1 = some err →
      errorsIs err GoError.ErrMountExist = false) :
    fs.ReadFile os path s
        = (([], some (GoError.FSError (lit "read file") fs.fsType fs.target
            GoError.ErrMountNotExist)), Sys.mk (check fs.target s.world).2 s.log)
      ∧ fs.ReadLink os path s
        = (([], some (GoError.FSError (lit "read link") fs.fsType fs.target
            GoError.ErrMountNotExist)), Sys.mk (check fs.target s.world).2 s.log)
      ∧ fs.WriteFile os path content perm s
        = (some (GoError.FSError (lit "write file") fs.fsType fs.target
            GoError.ErrMountNotExist), Sys.mk (check fs.target s.world).2 s.log)
      ∧ ∀ op, errorsIs (GoError.FSError op fs.fsType fs.target GoError.ErrMountNotExist)
          GoError.ErrMountNotExist = true := by
  have hn := notMounted_of_check fs check s hc hr
  refine ⟨?_, ?_, ?_, ?_⟩
  · simp only [FS.ReadFile, hn, FS.error]
  · simp only [FS.ReadLink, hn, FS.error]
  · simp only [FS.WriteFile, hn, FS.error]
  · intro op; simp [errorsIs]

/-- Witness of C3: `ProcFS` in a world where `/proc/self` does not exist. -/
theorem file_ops_need_confirmed_mount_witness :
    (ProcFS memOS).ReadFile memOS (lit "cmdline") (Sys.mk [(lit "/proc/cmdline", lit "quiet")] [])
        = (([], some (GoError.FSError (lit "read file") (lit "proc") (lit "/proc")
            GoError.ErrMountNotExist)), Sys.mk [(lit "/proc/cmdline", lit "quiet")] []) :=
  (file_ops_need_confirmed_mount memOS (ProcFS memOS) (checkExist memOS (lit "self"))
    (lit "cmdline") [] 0 (Sys.mk [(lit "/proc/cmdline", lit "quiet")] []) rfl (by decide)).1

/-- C1, at the inputs where the code leaves the claim: with target `/proc`, the relative
path `../procfoo/x` is joined to `/procfoo/x` and the absolute path `/proc/../etc/passwd`
is taken as it is; both start with the characters `/proc`, so `ReadFile` hands them to
`os.ReadFile` and `WriteFile` to `os.WriteFile`, although neither lies within `/proc`. -/
theorem file_ops_escape_target :
    (ProcFS memOS).ReadFile memOS (lit "../procfoo/x") (Sys.mk escapeWorld [])
        = ((lit "secret", none),
            Sys.mk escapeWorld [Call.readFile (lit "/procfoo/x") (lit "secret")])
      ∧ lexicallyWithin (lit "/proc") (lit "/procfoo/x") = false
      ∧ (ProcFS memOS).ReadFile memOS (lit "/proc/../etc/passwd") (Sys.mk escapeWorld [])
        = ((lit "root:x:0:0", none),
            Sys.mk escapeWorld [Call.readFile (lit "/proc/../etc/passwd") (lit "root:x:0:0")])
      ∧ Clean (lit "/proc/../etc/passwd") = lit "/etc/passwd"
      ∧ lexicallyWithin (lit "/proc") (lit "/proc/../etc/passwd") = false
      ∧ ((ProcFS memOS).WriteFile memOS (lit "../procfoo/x") (lit "1") 0o666
          (Sys.mk escapeWorld [])).2.log
        = [Call.writeFile (lit "/procfoo/x") (lit "1") 0o666]
      ∧ ((ProcFS memOS).ReadLink memOS (lit "../procfoo/x") (Sys.mk escapeWorld [])).2.log
        = [Call.readlink (lit "/procfoo/x") []] := by
  decide

/-- C4, at the input where the code leaves the claim: `NewPipeWatcher` makes the channel
`closed`, so on a watcher that was never started the guard `tp.closed != nil` of `WaitStop`
holds and `Stop` and `WaitStop` block in the receive on a channel that no goroutine will
close; a `StartWithCxt` that returns an error leaves the watcher as it was, so the same
holds after it. -/
theorem stop_never_started_blocks :
    (Stop NewPipeWatcher).1 = Outcome.blocked
      ∧ (WaitStop NewPipeWatcher).1 = Outcome.blocked
      ∧ ∀ (W : Type) (os : OS W) (ctxDone : Bool) (s : Sys W),
          (StartWithCxt os NewPipeWatcher ctxDone s).1 = none
            ∨ ((Stop (StartWithCxt os NewPipeWatcher ctxDone s).2.1).1 = Outcome.blocked
              ∧ (WaitStop (StartWithCxt os NewPipeWatcher ctxDone s).2.1).1
                = Outcome.blocked) := by
  refine ⟨by decide, by decide, ?_⟩
  intro W os ctxDone s
  unfold StartWithCxt
  simp only
  split
  · right; exact ⟨rfl, rfl⟩
  · split
    · right; exact ⟨rfl, rfl⟩
    · left; rfl

/-- C8, at the input where the code leaves the claim: for the event `openat`, the probe of
`ReadFile` finds tracefs not mounted, and the probe of the `Mount` that follows finds it
mounted; `setEnable` returns the "already mounted" error of `Mount`, and neither the write
for `openat` nor any call for the second event is made. -/
theorem setEnable_aborts_on_already_mounted :
    setEnable raceOS [lit "openat", lit "net:tcp_connect"] true (Sys.mk 0 [])
        = (some (GoError.FSError (lit "check mount point") (lit "tracefs")
            (lit "/sys/kernel/tracing") GoError.ErrMountExist), Sys.mk 2 [])
      ∧ errorsIs (GoError.FSError (lit "check mount point") (lit "tracefs")
            (lit "/sys/kernel/tracing") GoError.ErrMountExist) GoError.ErrMountExist = true := by
  decide

/-- C10, at the inputs where the code leaves the claim: the cutset of the `strings.Trim` in
`parseBootstrapEvents` is backslash, `x`, `0`, `[`, `]` and has no NUL in it, so a trailing
NUL stays in the event name, and a trailing `0` or `x` of the command line is cut off. -/
theorem trim_keeps_nul_and_cuts_digits :
    collectEvents (bootstrapParams (lit "trace_events=openat" ++ [NUL]))
        = [lit "syscalls:openat" ++ [NUL]]
      ∧ collectEvents (bootstrapParams (lit "trace_events=exit0")) = [lit "syscalls:exit"]
      ∧ collectEvents (bootstrapParams (lit "quiet trace_events=sys_enter_futex"))
        = [lit "syscalls:sys_enter_fute"]
      ∧ Trim (lit "trace_events=openat" ++ [NUL]) trimCutset = lit "trace_events=openat" ++ [NUL]
      ∧ Trim (lit "trace_events=exit0") trimCutset = lit "trace_events=exit" := by
  decide

/-- The loop of `Split` never returns the empty list. -/
theorem splitAux_ne_nil (sep : Char) (s cur : Str) : splitAux sep s cur ≠ [] := by
  induction s generalizing cur with
  | nil => simp [splitAux]
  | cons c t ih =>
    unfold splitAux
    split
    · simp
    · exact ih _

/-- The first segment is what comes before the first separator. -/
theorem splitAux_headD (sep : Char) (s cur : Str) :
    (splitAux sep s cur).headD [] = cur.reverse ++ s.takeWhile (fun c => c != sep) := by
  induction s generalizing cur with
  | nil => simp [splitAux]
  | cons c t ih =>
    unfold splitAux
    by_cases h : c = sep
    · simp [h]
    · simp only [beq_iff_eq, h, if_false]
      rw [ih]
      simp [List.takeWhile_cons, h]

/-- There is more than one segment exactly when the separator occurs. -/
theorem splitAux_length (sep : Char) (s cur : Str) :
    1 < (splitAux sep s cur).length ↔ sep ∈ s := by
  induction s generalizing cur with
  | nil => simp [splitAux]
  | cons c t ih =>
    unfold splitAux
    by_cases h : c = sep
    · have := splitAux_ne_nil sep t []
      simp [h, List.length_pos, this]
    · have h2 : ¬ sep = c := fun e => h e.symm
      simp [h, h2, ih]

/-- The part after the last separator does not change when a character is put in front of
a string that has a separator. -/
theorem takeWhile_reverse_snoc (sep c : Char) (t : Str) (h : sep ∈ t) :
    ((c :: t).reverse.takeWhile (fun x => x != sep)) = t.reverse.takeWhile (fun x => x != sep) := by
  rw [List.reverse_cons, List.takeWhile_append]
  have : (List.takeWhile (fun x => x != sep) t.reverse).length ≠ t.reverse.length := by
    intro hl
    have h1 := List.takeWhile_append_dropWhile (fun x => x != sep) t.reverse
    have h2 : List.dropWhile (fun x => x != sep) t.reverse = [] := by
      have := congrArg List.length h1
      simp only [List.length_append] at this
      exact List.length_eq_zero.mp (by omega)
    rw [List.dropWhile_eq_nil_iff] at h2
    have := h2 sep (by simpa using h)
    simp at this
  rw [if_neg this]

/-- The last segment is what comes after the last separator. -/
theorem splitAux_getLastD (sep : Char) (s cur : Str) :
    (splitAux sep s cur).getLastD [] =
      if sep ∈ s then (s.reverse.takeWhile (fun c => c != sep)).reverse
      else cur.reverse ++ s := by
  induction s generalizing cur with
  | nil => simp [splitAux]
  | cons c t ih =>
    unfold splitAux
    by_cases h : c = sep
    · subst h
      simp only [beq_self_eq_true, if_true, List.getLastD_cons, List.mem_cons, true_or]
      have hne := splitAux_ne_nil c t []
      have e : (splitAux c t []).getLastD [] = (splitAux c t []).getLastD cur.reverse := by
        cases hs : splitAux c t [] with
        | nil => exact absurd hs hne
        | cons a l => rw [List.getLastD_cons, List.getLastD_cons]
      rw [← e, ih]
      by_cases ht : c ∈ t
      · simp only [ht, if_true]
        rw [takeWhile_reverse_snoc c c t ht]
      · simp only [ht, if_false, List.reverse_nil, List.nil_append]
        rw [List.reverse_cons, List.takeWhile_append_of_pos]
        · simp
        · intro a ha
          have : a ≠ c := fun e => ht (by simpa [e] using ha)
          simpa using this
    · have h2 : ¬ sep = c := fun e => h e.symm
      simp only [beq_iff_eq, h, if_false, List.mem_cons, h2, false_or]
      rw [ih]
      by_cases ht : sep ∈ t
      · simp only [ht, if_true]
        rw [takeWhile_reverse_snoc sep c t ht]
      · simp [ht]

/-- The event name is what follows the last colon. -/
theorem eventName_eq (e : Str) :
    eventName e = (e.reverse.takeWhile (fun c => c != ':')).reverse := by
  unfold eventName Split
  rw [splitAux_getLastD]
  by_cases h : ':' ∈ e
  · simp [h]
  · simp only [h, if_false, List.reverse_nil, List.nil_append]
    have : e.reverse.takeWhile (fun c => c != ':') = e.reverse := by
      rw [List.takeWhile_eq_self_iff]
      intro a ha
      have : a ≠ ':' := fun e' => h (by simpa [e'] using ha)
      simpa using this
    rw [this, List.reverse_reverse]

/-- The subsystem is what precedes the first colon, or the default without a colon. -/
theorem eventSubsystem_eq (e : Str) :
    eventSubsystem e
      = if ':' ∈ e then e.takeWhile (fun c => c != ':') else defaultSubsystem := by
  unfold eventSubsystem Split
  simp only [gt_iff_lt, splitAux_length, splitAux_headD, List.reverse_nil, List.nil_append]

/-- C6 as stated fails at "a:b:c": the claim takes "a:b", everything before the last
colon, for the subsystem, and `setEnable` takes `se[0]`, which is "a"; the path is
`events/a/c/enable`, not `events/a:b/c/enable`. -/
theorem subsystem_two_colons :
    eventSubsystem (lit "a:b:c") = lit "a"
      ∧ claimedSubsystem (lit "a:b:c") = lit "a:b"
      ∧ eventSubsystem (lit "a:b:c") ≠ claimedSubsystem (lit "a:b:c")
      ∧ eventPath (lit "a:b:c") = lit "events/a/c/enable"
      ∧ eventPath (lit "a:b:c") ≠ lit "events/a:b/c/enable" := by
  decide

/-- C6, amended: for every identifier `e`, the event name of `setEnable` is what follows
the last colon of `e` (all of `e` without a colon), the subsystem is what precedes the FIRST
colon ("syscalls" without a colon), and the path is `events/<subsystem>/<event>/enable`;
"net:tcp_connect", "openat" and "a:b:c" give `events/net/tcp_connect/enable`,
`events/syscalls/openat/enable` and `events/a/c/enable`, and these are the files `Enable`
reads and writes under the tracefs target. -/
theorem eventPath_first_last (e : Str) :
    eventName e = (e.reverse.takeWhile (fun c => c != ':')).reverse
      ∧ eventSubsystem e
        = (if ':' ∈ e then e.takeWhile (fun c => c != ':') else defaultSubsystem)
      ∧ eventPath e
        = lit "events/" ++ eventSubsystem e ++ lit "/" ++ eventName e ++ lit "/enable"
      ∧ eventPath (lit "net:tcp_connect") = lit "events/net/tcp_connect/enable"
      ∧ eventPath (lit "openat") = lit "events/syscalls/openat/enable"
      ∧ eventPath (lit "a:b:c") = lit "events/a/c/enable"
      ∧ (Enable memOS [lit "net:tcp_connect", lit "openat", lit "a:b:c"]
          (Sys.mk toggleWorld [])).2.log
        = [Call.readFile (lit "/sys/kernel/tracing/events/net/tcp_connect/enable") (lit "0\n"),
            Call.writeFile (lit "/sys/kernel/tracing/events/net/tcp_connect/enable") (lit "1")
              0o666,
            Call.readFile (lit "/sys/kernel/tracing/events/syscalls/openat/enable") (lit "0\n"),
            Call.writeFile (lit "/sys/kernel/tracing/events/syscalls/openat/enable") (lit "1")
              0o666,
            Call.readFile (lit "/sys/kernel/tracing/events/a/c/enable") (lit "0\n"),
            Call.writeFile (lit "/sys/kernel/tracing/events/a/c/enable") (lit "1") 0o666] :=
  ⟨eventName_eq e, eventSubsystem_eq e, rfl, by decide, by decide, by decide, by decide⟩

/-- The loop of `Split` is the loop of `List.splitOnP`. -/
theorem splitAux_eq_splitOnP (sep : Char) (s cur : Str) :
    splitAux sep s cur = List.splitOnP.go (fun c => c == sep) s cur := by
  induction s generalizing cur with
  | nil => simp [splitAux, List.splitOnP.go]
  | cons c t ih =>
    unfold splitAux List.splitOnP.go
    split <;> simp_all

/-- The model of `strings.Split` is `List.splitOn`. -/
theorem Split_eq_splitOn (s : Str) (sep : Char) : Split s sep = s.splitOn sep := by
  simp [Split, List.splitOn, List.splitOnP, splitAux_eq_splitOnP]

/-- A string contains ":" exactly when the colon is one of its characters. -/
theorem Contains_colon (s : Str) : Contains s (lit ":") = decide (':' ∈ s) := by
  induction s with
  | nil => simp [Contains, HasPrefixStr, lit]
  | cons c t ih =>
    simp only [Contains, ih]
    by_cases h : c = ':'
    · simp [h, HasPrefixStr, lit]
    · have h2 : ¬ ':' = c := fun e => h e.symm
      simp [h, h2, HasPrefixStr, lit, List.isPrefixOf]

/-- The inner loop appends the qualified entries. -/
theorem appendEvents_eq (events : List Str) (syscallParam : Str) :
    appendEvents events syscallParam
      = events ++ (syscallParam.splitOn ',').map qualified := by
  unfold appendEvents
  rw [Split_eq_splitOn]
  generalize syscallParam.splitOn ',' = entries
  induction entries generalizing events with
  | nil => simp
  | cons a l ih =>
    simp only [List.foldl_cons, List.map_cons]
    rw [ih]
    simp [qualified, Contains_colon]

/-- The outer loop, from any list of events collected so far. -/
theorem collectEvents_foldl (acc : List Str) (tokens : List Str) :
    tokens.foldl
        (fun events arg =>
          match CutPrefixStr arg (lit "trace_events=") with
          | (syscallParam, true) => appendEvents events syscallParam
          | (_, false) => events)
        acc
      = acc ++ claimedEvents tokens := by
  induction tokens generalizing acc with
  | nil => simp [claimedEvents]
  | cons t ts ih =>
    simp only [List.foldl_cons]
    rw [ih]
    by_cases h : lit "trace_events=" <+: t
    · have hp : HasPrefixStr t (lit "trace_events=") = true := by
        simpa [HasPrefixStr, List.isPrefixOf_iff_prefix] using h
      simp [claimedEvents, CutPrefixStr, hp, h, appendEvents_eq]
    · have hp : HasPrefixStr t (lit "trace_events=") = false := by
        rw [Bool.eq_false_iff]
        intro hp
        exact h (List.isPrefixOf_iff_prefix.mp hp)
      simp [claimedEvents, CutPrefixStr, hp, h]

/-- The two loops of `parseBootstrapEvents` compute what the claim says. -/
theorem collectEvents_eq (tokens : List Str) : collectEvents tokens = claimedEvents tokens := by
  unfold collectEvents
  rw [collectEvents_foldl]
  simp

/-- A qualified entry has a colon. -/
theorem qualified_has_colon (entry : Str) : ':' ∈ qualified entry := by
  unfold qualified
  split
  · assumption
  · simp [lit]

/-- The loop of `Fields` is the loop of `List.splitOnP` with the empty pieces left out. -/
theorem fieldsAux_eq (s cur : Str) :
    fieldsAux s cur = (List.splitOnP.go IsSpace s cur).filter (fun t => !t.isEmpty) := by
  induction s generalizing cur with
  | nil =>
    cases cur with
    | nil => rfl
    | cons a l => simp [fieldsAux, List.splitOnP.go]
  | cons c t ih =>
    unfold fieldsAux List.splitOnP.go
    by_cases hc : IsSpace c = true
    · cases cur with
      | nil => simp [hc, ih]
      | cons a l => simp [hc, ih]
    · simp [hc, ih]

/-- The model of `strings.Fields` gives the whitespace-separated tokens. -/
theorem Fields_eq (s : Str) : Fields s = claimedTokens s := by
  simp [Fields, claimedTokens, List.splitOnP, fieldsAux_eq]

/-- Nothing is dropped from a string whose first character is to be kept. -/
theorem dropWhile_plain (p : Char → Bool) (l : Str)
    (h : ∀ c, l.head? = some c → p c = false) : l.dropWhile p = l := by
  cases l with
  | nil => rfl
  | cons a t => simp [List.dropWhile_cons, h a rfl]

/-- The brackets are in the cutset of `parseBootstrapEvents`. -/
theorem cutset_of_bracket (c : Char) (h : c = '[' ∨ c = ']') :
    trimCutset.contains c = true := by
  rcases h with h | h <;> subst h <;> decide

/-- A plain end is not in the cutset of `parseBootstrapEvents`. -/
theorem cutset_of_plainEnd (o : Option Char) (h : plainEnd o = true) :
    ∀ c, o = some c → trimCutset.contains c = false := by
  intro c hc
  subst hc
  simp only [plainEnd, endChars, Bool.not_eq_true', List.contains_eq_any_beq, List.any_cons,
    List.any_nil, Bool.or_false, Bool.or_eq_false_iff] at h
  simp only [trimCutset, List.contains_eq_any_beq, List.any_cons, List.any_nil, Bool.or_false,
    Bool.or_eq_false_iff]
  tauto

/-- The trim of `parseBootstrapEvents` takes the brackets off a line with plain ends and
nothing else. -/
theorem Trim_bracketed (pre mid post : Str)
    (hpre : ∀ c ∈ pre, c = '[' ∨ c = ']') (hpost : ∀ c ∈ post, c = '[' ∨ c = ']')
    (hhead : plainEnd mid.head? = true) (hlast : plainEnd mid.getLast? = true) :
    Trim (pre ++ mid ++ post) trimCutset = mid := by
  unfold Trim
  cases mid with
  | nil =>
    have h0 : (pre ++ [] ++ post).dropWhile (fun c => trimCutset.contains c) = [] := by
      rw [List.dropWhile_eq_nil_iff]
      intro c hc
      simp only [List.append_nil, List.mem_append] at hc
      rcases hc with hc | hc
      · exact cutset_of_bracket c (hpre c hc)
      · exact cutset_of_bracket c (hpost c hc)
    rw [h0]
    rfl
  | cons a m =>
    have ha : ¬ trimCutset.contains a = true := by
      rw [cutset_of_plainEnd _ hhead a rfl]; simp
    have h1 : (pre ++ (a :: m) ++ post).dropWhile (fun c => trimCutset.contains c)
        = (a :: m) ++ post := by
      rw [List.append_assoc,
        List.dropWhile_append_of_pos (fun c hc => cutset_of_bracket c (hpre c hc))]
      rw [List.cons_append, List.dropWhile_cons_of_neg ha]
    rw [h1, List.reverse_append,
      List.dropWhile_append_of_pos
        (fun c hc => cutset_of_bracket c (hpost c (List.mem_reverse.mp hc)))]
    rw [dropWhile_plain _ _ (fun c hc => cutset_of_plainEnd _ hlast c
      (by rw [← hc, List.head?_reverse])), List.reverse_reverse]

/-- C5 as stated fails: the tokens are not those of the command line itself. The function
trims the ends of the line before it splits it, so for `[trace_events=openat]` it builds
`["syscalls:openat"]`, where the only whitespace-separated token of the line starts with
"[" and gives nothing; the same happens for a line that begins with `x`. -/
theorem tokens_not_of_raw_line :
    collectEvents (bootstrapParams (lit "[trace_events=openat]")) = [lit "syscalls:openat"]
      ∧ claimedEvents (claimedTokens (lit "[trace_events=openat]")) = []
      ∧ collectEvents (bootstrapParams (lit "xtrace_events=a\n")) = [lit "syscalls:a"]
      ∧ claimedEvents (claimedTokens (lit "xtrace_events=a\n")) = [] := by
  decide

/-- C5, amended: for every kernel command line that is a line `mid` with `[` and `]`
characters before and after it, where `mid` neither begins nor ends with NUL, a bracket,
backslash, `x` or `0`, the events `parseBootstrapEvents` builds are, over the
whitespace-separated tokens of `mid` in order, the concatenation for each token that starts
with "trace_events=" of its comma-separated entries, where an entry without ":" becomes
"syscalls:" + entry and every other entry is kept (order and duplicates kept, other tokens
give nothing), and that is what the function returns when it reads that command line; the
two loops compute this concatenation for every list of tokens, every event has a ":", and a
command line with `trace_events=openat,net:tcp_connect` gives
`["syscalls:openat", "net:tcp_connect"]`. -/
theorem parseBootstrapEvents_plain_line (pre mid post : Str)
    (hpre : ∀ c ∈ pre, c = '[' ∨ c = ']') (hpost : ∀ c ∈ post, c = '[' ∨ c = ']')
    (hhead : plainEnd mid.head? = true) (hlast : plainEnd mid.getLast? = true) :
    collectEvents (bootstrapParams (pre ++ mid ++ post)) = claimedEvents (claimedTokens mid)
      ∧ (∀ (W : Type) (os : OS W) (s : Sys W),
          (readCmdline os s).1 = some (pre ++ mid ++ post) →
          (parseBootstrapEvents os s).1 = some (claimedEvents (claimedTokens mid)))
      ∧ (∀ tokens : List Str, collectEvents tokens = claimedEvents tokens)
      ∧ (∀ tokens : List Str,
          (collectEvents tokens).all (fun event => Contains event (lit ":")) = true)
      ∧ collectEvents (bootstrapParams (lit "trace_events=openat,net:tcp_connect"))
        = [lit "syscalls:openat", lit "net:tcp_connect"]
      ∧ (parseBootstrapEvents memOS (Sys.mk bootWorld [])).1
        = some [lit "syscalls:openat", lit "net:tcp_connect"] := by
  have hcore : collectEvents (bootstrapParams (pre ++ mid ++ post))
      = claimedEvents (claimedTokens mid) := by
    rw [collectEvents_eq, bootstrapParams, Trim_bracketed pre mid post hpre hpost hhead hlast,
      Fields_eq]
  refine ⟨hcore, ?_, collectEvents_eq, ?_, by decide, by decide⟩
  · intro W os s h
    unfold parseBootstrapEvents
    cases hr : readCmdline os s with
    | mk r s1 =>
      rw [hr] at h
      simp only at h
      subst h
      simp only [hcore]
  · intro tokens
    rw [List.all_eq_true]
    intro event h
    rw [Contains_colon, decide_eq_true_eq]
    rw [collectEvents_eq] at h
    simp only [claimedEvents, List.mem_flatMap] at h
    obtain ⟨tok, -, h⟩ := h
    split at h
    · simp only [List.mem_map] at h
      obtain ⟨entry, -, rfl⟩ := h
      exact qualified_has_colon entry
    · simp at h

/-- Witness of C5: a command line in brackets that asks for three events, one of them
twice. -/
theorem parseBootstrapEvents_plain_line_witness :
    collectEvents (bootstrapParams
        (lit "[" ++ lit "ro trace_events=openat,net:tcp_connect,openat quiet\n" ++ lit "]"))
      = claimedEvents (claimedTokens (lit "ro trace_events=openat,net:tcp_connect,openat quiet\n"))
      ∧ claimedEvents (claimedTokens (lit "ro trace_events=openat,net:tcp_connect,openat quiet\n"))
        = [lit "syscalls:openat", lit "net:tcp_connect", lit "syscalls:openat"] :=
  ⟨(parseBootstrapEvents_plain_line (lit "[")
      (lit "ro trace_events=openat,net:tcp_connect,openat quiet\n") (lit "]")
      (by decide) (by decide) (by decide) (by decide)).1, by decide⟩

/-- The reads of two logs put together. -/
theorem readsOf_append (a b : List Call) : readsOf (a ++ b) = readsOf a ++ readsOf b := by
  induction a with
  | nil => rfl
  | cons c t ih => cases c <;> simp [readsOf, ih]

/-- The writes of two logs put together. -/
theorem writesOf_append (a b : List Call) : writesOf (a ++ b) = writesOf a ++ writesOf b := by
  induction a with
  | nil => rfl
  | cons c t ih => cases c <;> simp [writesOf, ih]

/-- The path the check of `TraceFS` stats. -/
theorem tracefs_marker_eq :
    Join (lit "/sys/kernel/tracing") (lit "available_events") = tracefsMarker := by
  decide

/-- The gate of `TraceFS` is open when the stat of the marker succeeds. -/
theorem traceFS_gate {W : Type} (os : OS W) (w : W) (l : List Call)
    (h : (os.stat tracefsMarker w).1 = none) :
    (TraceFS os).notMounted (Sys.mk w l) = (false, Sys.mk (os.stat tracefsMarker w).2 l) := by
  simp [FS.notMounted, TraceFS, NewFS, checkExist, tracefs_marker_eq, h, errorsIs]

/-- The path of an event is relative, so `TraceFS` joins it under its target. -/
theorem traceFS_resolve {W : Type} (os : OS W) (e : Str) :
    (TraceFS os).resolve (eventPath e) = absPath e := by
  simp [FS.resolve, IsAbs, HasPrefixStr, eventPath, lit, absPath, TraceFS, NewFS,
    List.isPrefixOf]

/-- With the gate open and the path contained, `TraceFS.ReadFile` is the read of the
operating system, logged. -/
theorem traceFS_readFile {W : Type} (os : OS W) (e : Str) (w : W) (l : List Call)
    (h : (os.stat tracefsMarker w).1 = none) (hc : contained e = true) :
    (TraceFS os).ReadFile os (eventPath e) (Sys.mk w l)
      = ((os.readFile (absPath e) (os.stat tracefsMarker w).2).1,
          Sys.mk (os.readFile (absPath e) (os.stat tracefsMarker w).2).2
            (l ++ [Call.readFile (absPath e)
              (os.readFile (absPath e) (os.stat tracefsMarker w).2).1.1])) := by
  have hc2 : HasPrefixStr (absPath e) (TraceFS os).target = true := hc
  simp only [FS.ReadFile, traceFS_gate os w l h, traceFS_resolve, hc2]
  simp

/-- With the gate open and the path contained, `TraceFS.WriteFile` is the write of the
operating system, logged. -/
theorem traceFS_writeFile {W : Type} (os : OS W) (e content : Str) (perm : Nat) (w : W)
    (l : List Call) (h : (os.stat tracefsMarker w).1 = none) (hc : contained e = true) :
    (TraceFS os).WriteFile os (eventPath e) content perm (Sys.mk w l)
      = ((os.writeFile (absPath e) content perm (os.stat tracefsMarker w).2).1,
          Sys.mk (os.writeFile (absPath e) content perm (os.stat tracefsMarker w).2).2
            (l ++ [Call.writeFile (absPath e) content perm])) := by
  have hc2 : HasPrefixStr (absPath e) (TraceFS os).target = true := hc
  simp only [FS.WriteFile, traceFS_gate os w l h, traceFS_resolve, hc2]
  simp

/-- The loop over two lists of events: the second list is run after the first, unless the
first ended with an error. -/
theorem setEnableLoop_append {W : Type} (os : OS W) (flag : Str) (pre post : List Str)
    (s : Sys W) :
    setEnableLoop os flag (pre ++ post) s
      = match setEnableLoop os flag pre s with
        | (none, s1) => setEnableLoop os flag post s1
        | (some err, s1) => (some err, s1) := by
  induction pre generalizing s with
  | nil => simp [setEnableLoop]
  | cons e rest ih =>
    simp only [List.cons_append, setEnableLoop]
    split
    · split
      · rfl
      · split
        · rfl
        · exact ih _
    · exact ih _

/-- When every stat and every read succeeds, the loop reads every event in order, attempts
the write for each read whose trimmed data is not the flag, and returns `nil`, whatever the
writes return. -/
theorem setEnableLoop_reads_ok {W : Type} (os : OS W) (flag : Str)
    (hstat : ∀ w, (os.stat tracefsMarker w).1 = none)
    (hread : ∀ p w, (os.readFile p w).1.2 = none) :
    ∀ (events : List Str) (s : Sys W), (∀ e ∈ events, contained e = true) →
      ∃ L, (setEnableLoop os flag events s).1 = none
        ∧ (setEnableLoop os flag events s).2.log = s.log ++ L
        ∧ (readsOf L).map Prod.fst = events.map absPath
        ∧ writesOf L
          = ((readsOf L).filter (fun r => TrimSpace r.2 != flag)).map (fun r => (r.1, flag)) := by
  intro events
  induction events with
  | nil => intro s _; exact ⟨[], by simp [setEnableLoop, readsOf, writesOf]⟩
  | cons e rest ih =>
    intro s hc
    obtain ⟨w, l⟩ := s
    have hce : contained e = true := hc e (List.mem_cons_self _ _)
    have hrest : ∀ x ∈ rest, contained x = true := fun x hx => hc x (List.mem_cons_of_mem _ hx)
    have hR := traceFS_readFile os e w l (hstat w) hce
    have hnone := hread (absPath e) (os.stat tracefsMarker w).2
    cases hro : os.readFile (absPath e) (os.stat tracefsMarker w).2 with
    | mk d w2 =>
      obtain ⟨b, err⟩ := d
      rw [hro] at hR hnone
      simp only at hnone
      subst hnone
      simp only [setEnableLoop, hR]
      by_cases ht : TrimSpace b = flag
      · obtain ⟨L, h1, h2, h3, h4⟩ := ih (Sys.mk w2 (l ++ [Call.readFile (absPath e) b])) hrest
        refine ⟨Call.readFile (absPath e) b :: L, ?_, ?_, ?_, ?_⟩
        · simpa [setEnableWrite, ht] using h1
        · simpa [setEnableWrite, ht] using h2
        · simpa [readsOf] using h3
        · simpa [readsOf, writesOf, ht] using h4
      · have hW := traceFS_writeFile os e flag 0o666 w2 (l ++ [Call.readFile (absPath e) b])
          (hstat w2) hce
        have hsw : setEnableWrite os flag (eventPath e) b
            (Sys.mk w2 (l ++ [Call.readFile (absPath e) b]))
            = Sys.mk (os.writeFile (absPath e) flag 0o666 (os.stat tracefsMarker w2).2).2
                (l ++ [Call.readFile (absPath e) b] ++ [Call.writeFile (absPath e) flag 0o666]) := by
          simp [setEnableWrite, ht, hW]
        rw [hsw]
        obtain ⟨L, h1, h2, h3, h4⟩ := ih
          (Sys.mk (os.writeFile (absPath e) flag 0o666 (os.stat tracefsMarker w2).2).2
            (l ++ [Call.readFile (absPath e) b] ++ [Call.writeFile (absPath e) flag 0o666]))
          hrest
        refine ⟨Call.readFile (absPath e) b :: Call.writeFile (absPath e) flag 0o666 :: L,
          h1, ?_, ?_, ?_⟩
        · simpa using h2
        · simpa [readsOf] using h3
        · simpa [readsOf, writesOf, ht] using h4

/-- C9: for every list of events and whatever the writes return: when every stat of the
marker and every read of the operating system succeeds and the enable paths are contained in
the target (so every `TraceFS.ReadFile` succeeds), `setEnable` (`Enable` with `true`,
`Disable` with `false`) returns `nil`, reads every event of the list in order, and attempts
the write of the flag for exactly the reads whose trimmed data differs from the flag, also
after failed writes; and when, after the events `pre` were processed without error, the
read for the next event fails with an error that is not `ErrMountNotExist`, `setEnable`
returns that error in the state that read left: nothing is read or written for a later
event. -/
theorem write_failure_never_aborts {W : Type} (os : OS W) (events : TraceEvents)
    (enable : Bool) (s : Sys W) :
    ((∀ w, (os.stat tracefsMarker w).1 = none) →
      (∀ p w, (os.readFile p w).1.2 = none) →
      (∀ e ∈ events, contained e = true) →
      ∃ L, (setEnable os events enable s).1 = none
        ∧ (setEnable os events enable s).2.log = s.log ++ L
        ∧ (readsOf L).map Prod.fst = events.map absPath
        ∧ writesOf L
          = ((readsOf L).filter
              (fun r => TrimSpace r.2 != (if enable then lit "1" else lit "0"))).map
            (fun r => (r.1, if enable then lit "1" else lit "0")))
      ∧ (∀ (pre : List Str) (e : Str) (post : List Str) (s1 s2 : Sys W) (b : Str)
          (err : GoError),
          events = pre ++ e :: post →
          setEnable os pre enable s = (none, s1) →
          (TraceFS os).ReadFile os (eventPath e) s1 = ((b, some err), s2) →
          errorsIs err GoError.ErrMountNotExist = false →
          setEnable os events enable s = (some err, s2)) := by
  constructor
  · intro hstat hread hc
    exact setEnableLoop_reads_ok os _ hstat hread events s hc
  · intro pre e post s1 s2 b err hev hpre hR herr
    subst hev
    unfold setEnable at hpre ⊢
    simp only [setEnableLoop_append, hpre, setEnableLoop, hR, herr]
    simp

/-- Witness of C9: for two events, an operating system where every write fails with
"permission denied", and one where every read fails with it. -/
theorem write_failure_never_aborts_witness :
    (∃ L, (setEnable (stubOS (lit "0\n") none (some EACCES))
            [lit "openat", lit "net:tcp_connect"] true (Sys.mk () [])).1 = none
        ∧ (setEnable (stubOS (lit "0\n") none (some EACCES))
            [lit "openat", lit "net:tcp_connect"] true (Sys.mk () [])).2.log = [] ++ L
        ∧ (readsOf L).map Prod.fst = [lit "openat", lit "net:tcp_connect"].map absPath
        ∧ writesOf L
          = ((readsOf L).filter
              (fun r => TrimSpace r.2 != (if true then lit "1" else lit "0"))).map
            (fun r => (r.1, if true then lit "1" else lit "0")))
      ∧ setEnable (stubOS [] (some EACCES) none) [lit "openat", lit "net:tcp_connect"] true
          (Sys.mk () [])
        = (some EACCES, Sys.mk ()
            [Call.readFile (lit "/sys/kernel/tracing/events/syscalls/openat/enable") []]) :=
  ⟨(write_failure_never_aborts (stubOS (lit "0\n") none (some EACCES))
      [lit "openat", lit "net:tcp_connect"] true (Sys.mk () [])).1
      (fun _ => rfl) (fun _ _ => rfl) (by decide),
    (write_failure_never_aborts (stubOS [] (some EACCES) none)
      [lit "openat", lit "net:tcp_connect"] true (Sys.mk () [])).2
      [] (lit "openat") [lit "net:tcp_connect"] (Sys.mk () [])
      (Sys.mk () [Call.readFile (lit "/sys/kernel/tracing/events/syscalls/openat/enable") []])
      [] EACCES rfl rfl (by decide) (by decide)⟩

/-- A write of `c` to `p` makes reads of `p` give `c` and leaves the other paths. -/
theorem MemFS.read_write (w : MemFS) (p c q : Str) :
    (w.write p c).read q = if q = p then some c else w.read q := by
  induction w with
  | nil =>
    by_cases h : q = p
    · simp [MemFS.write, MemFS.read, h]
    · have h2 : ¬ p = q := fun e => h e.symm
      simp [MemFS.write, MemFS.read, h, h2]
  | cons f fs ih =>
    unfold MemFS.write
    by_cases hf : f.1 = p
    · by_cases h : q = p
      · simp [hf, h, MemFS.read]
      · have h2 : ¬ p = q := fun e => h e.symm
        simp [hf, h, h2, MemFS.read, List.find?_cons]
    · simp only [beq_iff_eq, hf, if_false]
      by_cases hq : f.1 = q
      · have : ¬ q = p := fun e => hf (hq.trans e)
        simp [MemFS.read, List.find?_cons, hq, this]
      · have e1 : MemFS.read (f :: MemFS.write fs p c) q = MemFS.read (MemFS.write fs p c) q := by
          simp [MemFS.read, List.find?_cons, hq]
        have e2 : MemFS.read (f :: fs) q = MemFS.read fs q := by
          simp [MemFS.read, List.find?_cons, hq]
        rw [e1, e2, ih]

/-- After a write of the flag to `p`, `p` is set, and the other paths are as before. -/
theorem alreadySet_write (flag : Str) (hf : TrimSpace flag = flag) (w : MemFS) (p q : Str) :
    alreadySet flag (w.write p flag) q = if q = p then true else alreadySet flag w q := by
  unfold alreadySet
  rw [MemFS.read_write]
  by_cases h : q = p
  · simp [h, hf]
  · simp [h]

/-- One round of the loop over the file system in memory, for an event whose enable file
exists. -/
theorem memOS_step (flag e c : Str) (rest : List Str) (w : MemFS) (l : List Call)
    (hm : (w.read tracefsMarker).isSome = true) (hc : contained e = true)
    (hr : w.read (absPath e) = some c) :
    setEnableLoop memOS flag (e :: rest) (Sys.mk w l)
      = setEnableLoop memOS flag rest
          (if TrimSpace c = flag then Sys.mk w (l ++ [Call.readFile (absPath e) c])
            else Sys.mk (w.write (absPath e) flag)
              (l ++ [Call.readFile (absPath e) c, Call.writeFile (absPath e) flag 0o666])) := by
  have hs : ∀ p : Str, (memOS.stat p w) = (if (w.read p).isSome then none else some noSuchFile, w) :=
    fun _ => rfl
  have hs1 : (memOS.stat tracefsMarker w).1 = none := by simp [hs, hm]
  have hR := traceFS_readFile memOS e w l hs1 hc
  have hrd : memOS.readFile (absPath e) w = ((c, none), w) := by
    simp [memOS, hr]
  simp only [hs, hm, if_true, hrd] at hR
  simp only [setEnableLoop, hR]
  by_cases ht : TrimSpace c = flag
  · simp [setEnableWrite, ht]
  · have hW := traceFS_writeFile memOS e flag 0o666 w (l ++ [Call.readFile (absPath e) c]) hs1 hc
    simp only [hs, hm, if_true] at hW
    have hwr : memOS.writeFile (absPath e) flag 0o666 w = (none, w.write (absPath e) flag) := rfl
    rw [hwr] at hW
    simp [setEnableWrite, ht, hW]

/-- When every event is set already, the loop makes only reads and leaves the file
system. -/
theorem memOS_loop_read_only (flag : Str) (w : MemFS)
    (hm : (w.read tracefsMarker).isSome = true) :
    ∀ (events : List Str) (l : List Call),
      (∀ e ∈ events, contained e = true ∧ alreadySet flag w (absPath e) = true) →
      setEnableLoop memOS flag events (Sys.mk w l)
        = (none, Sys.mk w
            (l ++ events.map (fun e => Call.readFile (absPath e) ((w.read (absPath e)).getD [])))) := by
  intro events
  induction events with
  | nil => intro l _; simp [setEnableLoop]
  | cons e rest ih =>
    intro l h
    obtain ⟨hc, ha⟩ := h e (List.mem_cons_self _ _)
    have hrest := fun x hx => h x (List.mem_cons_of_mem _ hx)
    cases hr : w.read (absPath e) with
    | none => simp [alreadySet, hr] at ha
    | some c =>
      have ht : TrimSpace c = flag := by simpa [alreadySet, hr] using ha
      rw [memOS_step flag e c rest w l hm hc hr, if_pos ht, ih _ hrest]
      simp [hr]

/-- The loop over the file system in memory: what it writes and the file system it leaves. -/
theorem memOS_loop_first (flag : Str) (hf : TrimSpace flag = flag) :
    ∀ (events : List Str) (w : MemFS) (l : List Call),
      (w.read tracefsMarker).isSome = true →
      (∀ e ∈ events, contained e = true ∧ (w.read (absPath e)).isSome = true) →
      ∃ (w1 : MemFS) (L1 : List Call),
        setEnableLoop memOS flag events (Sys.mk w l) = (none, Sys.mk w1 (l ++ L1))
          ∧ (readsOf L1).map Prod.fst = events.map absPath
          ∧ (∀ p c, (p, c) ∈ writesOf L1
              ↔ (c = flag ∧ p ∈ events.map absPath ∧ alreadySet flag w p = false))
          ∧ (writesOf L1).Nodup
          ∧ (∀ q, w1.read q
              = if q ∈ events.map absPath ∧ alreadySet flag w q = false then some flag
                else w.read q) := by
  intro events
  induction events with
  | nil =>
    intro w l _ _
    exact ⟨w, [], by simp [setEnableLoop], by simp [readsOf], by simp [writesOf],
      by simp [writesOf], by simp⟩
  | cons e rest ih =>
    intro w l hm h
    obtain ⟨hc, hex⟩ := h e (List.mem_cons_self _ _)
    have hrest := fun x hx => h x (List.mem_cons_of_mem _ hx)
    cases hr : w.read (absPath e) with
    | none => simp [hr] at hex
    | some c =>
      rw [memOS_step flag e c rest w l hm hc hr]
      by_cases ht : TrimSpace c = flag
      · have ha : alreadySet flag w (absPath e) = true := by simp [alreadySet, hr, ht]
        rw [if_pos ht]
        obtain ⟨w1, L, h1, h2, h3, h4, h5⟩ := ih w (l ++ [Call.readFile (absPath e) c]) hm hrest
        refine ⟨w1, Call.readFile (absPath e) c :: L, ?_, ?_, ?_, ?_, ?_⟩
        · simpa using h1
        · simpa [readsOf] using h2
        · intro p x
          simp only [writesOf, h3, List.map_cons, List.mem_cons]
          constructor
          · rintro ⟨hx, hp, hn⟩
            exact ⟨hx, Or.inr hp, hn⟩
          · rintro ⟨hx, hp | hp, hn⟩
            · rw [hp, ha] at hn; exact absurd hn (by simp)
            · exact ⟨hx, hp, hn⟩
        · simpa [writesOf] using h4
        · intro q
          rw [h5 q]
          by_cases hq : q = absPath e
          · subst hq; simp [ha]
          · simp [hq]
      · have ha : alreadySet flag w (absPath e) = false := by simp [alreadySet, hr, ht]
        rw [if_neg ht]
        have hm2 : ((w.write (absPath e) flag).read tracefsMarker).isSome = true := by
          rw [MemFS.read_write]; split <;> simp [hm]
        have hrest2 : ∀ x ∈ rest, contained x = true
            ∧ ((w.write (absPath e) flag).read (absPath x)).isSome = true := by
          intro x hx
          refine ⟨(hrest x hx).1, ?_⟩
          rw [MemFS.read_write]; split
          · simp
          · exact (hrest x hx).2
        obtain ⟨w1, L, h1, h2, h3, h4, h5⟩ := ih (w.write (absPath e) flag)
          (l ++ [Call.readFile (absPath e) c, Call.writeFile (absPath e) flag 0o666]) hm2 hrest2
        refine ⟨w1, Call.readFile (absPath e) c :: Call.writeFile (absPath e) flag 0o666 :: L,
          ?_, ?_, ?_, ?_, ?_⟩
        · simpa using h1
        · simpa [readsOf] using h2
        · intro p x
          simp only [writesOf, h3, List.map_cons, List.mem_cons, Prod.mk.injEq,
            alreadySet_write flag hf]
          by_cases hp : p = absPath e
          · subst hp; simp [ha]
          · simp [hp]
        · simp only [writesOf, List.nodup_cons]
          refine ⟨?_, h4⟩
          rw [h3]
          simp [alreadySet_write flag hf]
        · intro q
          rw [h5 q, MemFS.read_write]
          simp only [alreadySet_write flag hf, List.map_cons, List.mem_cons]
          by_cases hq : q = absPath e
          · subst hq; simp [ha]
          · simp [hq]

/-- The loop, run twice, toggles once. -/
theorem memOS_toggles_once (flag : Str) (hf : TrimSpace flag = flag) (events : List Str)
    (w : MemFS) (l : List Call) (hm : (w.read tracefsMarker).isSome = true)
    (hr : ∀ e ∈ events, contained e = true ∧ (w.read (absPath e)).isSome = true) :
    TogglesOnce (setEnableLoop memOS flag events) flag events w l := by
  obtain ⟨w1, L1, h1, h2, h3, h4, h5⟩ := memOS_loop_first flag hf events w l hm hr
  refine ⟨w1, L1, h1, h2, h3, h4, h5, ?_⟩
  apply memOS_loop_read_only flag w1
  · rw [h5]; split <;> simp [hm]
  · intro e he
    refine ⟨(hr e he).1, ?_⟩
    have hmem : absPath e ∈ events.map absPath := List.mem_map_of_mem _ he
    by_cases ha : alreadySet flag w (absPath e) = true
    · have hw : w1.read (absPath e) = w.read (absPath e) := by rw [h5]; simp [ha]
      unfold alreadySet
      rw [hw]
      exact ha
    · have hw : w1.read (absPath e) = some flag := by rw [h5]; simp [ha, hmem]
      unfold alreadySet
      rw [hw]
      simp [hf]

/-- C7: over the file system in memory, where a write of `c` makes later reads of the path
give `c`, with the tracefs marker present and, for every event, the enable path contained in
the target and the enable file present: the first `Enable()` writes "1", once, exactly to
the event paths whose trimmed content was not "1" already, and a second `Enable()` right
after it makes zero writes (only the reads) and leaves the file system unchanged; the same
holds for `Disable()` with "0". -/
theorem enable_twice_writes_once (events : TraceEvents) (w : MemFS) (l : List Call)
    (hm : (w.read tracefsMarker).isSome = true)
    (hr : ∀ e ∈ events, contained e = true ∧ (w.read (absPath e)).isSome = true) :
    TogglesOnce (Enable memOS events) (lit "1") events w l
      ∧ TogglesOnce (Disable memOS events) (lit "0") events w l :=
  ⟨memOS_toggles_once (lit "1") (by decide) events w l hm hr,
    memOS_toggles_once (lit "0") (by decide) events w l hm hr⟩

/-- Witness of C7: three events, one of them twice, all switched off at the start. -/
theorem enable_twice_writes_once_witness :
    TogglesOnce (Enable memOS [lit "net:tcp_connect", lit "openat", lit "net:tcp_connect"])
        (lit "1") [lit "net:tcp_connect", lit "openat", lit "net:tcp_connect"] toggleWorld []
      ∧ TogglesOnce (Disable memOS [lit "net:tcp_connect", lit "openat", lit "net:tcp_connect"])
        (lit "0") [lit "net:tcp_connect", lit "openat", lit "net:tcp_connect"] toggleWorld [] :=
  enable_twice_writes_once [lit "net:tcp_connect", lit "openat", lit "net:tcp_connect"]
    toggleWorld [] (by decide) (by decide)

end Ghelp
